import Mathlib

/-!
Shallow embedding of src/mxml-attr.c (libmicroxml attribute support).

C strings that may be NULL are modelled as Option String; a NULL node pointer
as none at the Option MxmlNode call sites.  Each allocation site of the C code
(strdup of the value, malloc/realloc growth of the attribute array, strdup of
the name, and the variadic formatting call) is modelled by an explicit Bool
oracle parameter saying whether that allocation succeeds, so that the
error-handling behaviour of the code can be stated and proved.  Diagnostics
handed to the process-wide mxml_error callback are collected in a list.
-/

namespace Microxml

/-- An attribute record, mirroring mxml_attr_t: an owned name string and an
owned value string that may be NULL (a valueless attribute). -/
structure MxmlAttr where
  name : String
  val : Option String
deriving Repr, DecidableEq

/-- The part of mxml_node_t the attribute code observes: an element node with
its element name and attribute array, or a node of any other kind
(node->type different from MXML_ELEMENT). -/
inductive MxmlNode where
  | element (elName : String) (attrs : List MxmlAttr)
  | nonElement
deriving Repr, DecidableEq

/-- Outcome of a call: noop when the range check at the top of a public
function returns early, otherwise the success (0) or failure (-1) code of
mxml_set_attr. -/
inductive CallStatus where
  | noop
  | success
  | failure
deriving Repr, DecidableEq

/-- Result of mxml_set_attr: the return code, the attribute array after the
call, and the diagnostics passed to mxml_error during the call. -/
structure SetOut where
  result : CallStatus
  attrs : List MxmlAttr
  reports : List String
deriving Repr, DecidableEq

/-- Result of a public set operation: the call status, the node after the
call, and the diagnostics passed to mxml_error. -/
structure ElemSetOut where
  status : CallStatus
  node : Option MxmlNode
  reports : List String
deriving Repr, DecidableEq

/-- Result of mxmlElementDeleteAttr: the node after the call and the
diagnostics passed to mxml_error (the function contains no mxml_error call,
so the embedding always produces an empty list). -/
structure DeleteOut where
  node : Option MxmlNode
  reports : List String
deriving Repr, DecidableEq

/-- The diagnostic mxml_error receives on an allocation failure
(mxml-attr.c lines 234, 287, 297): it names the attribute and the owning
element. -/
def allocErrMsg (name elName : String) : String :=
  "Unable to allocate memory for attribute " ++ name ++ " in element "
    ++ elName ++ "!"

/-- The scan-and-replace loop of mxml_set_attr (mxml-attr.c:258-273): find the
first record whose name matches, free its old value and store the new one in
place; none when no record matches. -/
def setAttrLoop (attrs : List MxmlAttr) (name : String) (v : Option String) :
    Option (List MxmlAttr) :=
  match attrs with
  | [] => none
  | a :: rest =>
      if a.name = name then some (⟨a.name, v⟩ :: rest)
      else
        match setAttrLoop rest name v with
        | some rest2 => some (a :: rest2)
        | none => none

/-- mxml_set_attr (mxml-attr.c:245-307).  growthOk models whether the
malloc/realloc growing the array to num_attrs + 1 slots succeeds; nameDupOk
models whether strdup(name) succeeds.  On a growth failure the array and count
are untouched; on a name-copy failure the count is not incremented and the
extra physical slot stays unused, so the observable array is unchanged. -/
def mxml_set_attr (growthOk nameDupOk : Bool) (elName : String)
    (attrs : List MxmlAttr) (name : String) (v : Option String) : SetOut :=
  match setAttrLoop attrs name v with
  | some attrs2 => ⟨.success, attrs2, []⟩
  | none =>
      if growthOk then
        if nameDupOk then ⟨.success, attrs ++ [⟨name, v⟩], []⟩
        else ⟨.failure, attrs, [allocErrMsg name elName]⟩
      else ⟨.failure, attrs, [allocErrMsg name elName]⟩

/-- The strdup(value) step of mxmlElementSetAttr (mxml-attr.c:181-184): the
copied value, or NULL when the incoming value is NULL or the copy fails. -/
def valueCopy (valueDupOk : Bool) (v : Option String) : Option String :=
  match v with
  | some s => if valueDupOk then some s else none
  | none => none

/-- mxmlElementSetAttr (mxml-attr.c:161-188).  valueDupOk models whether
strdup(value) succeeds; on failure the C code silently passes valuec = NULL on
to mxml_set_attr.  The status is noop when the range check (node NULL, node
not an element, or name NULL) returns before any allocation. -/
def mxmlElementSetAttr (valueDupOk growthOk nameDupOk : Bool)
    (node : Option MxmlNode) (name : Option String) (v : Option String) :
    ElemSetOut :=
  match node, name with
  | some (.element elName attrs), some n =>
      let out := mxml_set_attr growthOk nameDupOk elName attrs n (valueCopy valueDupOk v)
      ⟨out.result, some (.element elName out.attrs), out.reports⟩
  | _, _ => ⟨.noop, node, []⟩

/-- The scan loop of mxmlElementGetAttrValue (mxml-attr.c:106-114): value of
the first record whose name matches; a stored NULL value is returned exactly
like a missing record, as in the C code. -/
def getAttrValueLoop (attrs : List MxmlAttr) (name : String) : Option String :=
  match attrs with
  | [] => none
  | a :: rest => if a.name = name then a.val else getAttrValueLoop rest name

/-- mxmlElementGetAttrValue (mxml-attr.c:96-117). -/
def mxmlElementGetAttrValue (node : Option MxmlNode) (name : Option String) :
    Option String :=
  match node, name with
  | some (.element _ attrs), some n => getAttrValueLoop attrs n
  | _, _ => none

/-- The scan loop of mxmlElementGetAttrName (mxml-attr.c:138-146).  The C code
calls strcmp(attr->value, value) without checking attr->value for NULL, so a
record whose value is absent makes the comparison undefined behaviour,
modelled as Except.error. -/
def getAttrNameLoop (attrs : List MxmlAttr) (v : String) :
    Except Unit (Option String) :=
  match attrs with
  | [] => .ok none
  | a :: rest =>
      match a.val with
      | none => .error ()
      | some av => if av = v then .ok (some a.name) else getAttrNameLoop rest v

/-- mxmlElementGetAttrName (mxml-attr.c:127-149). -/
def mxmlElementGetAttrName (node : Option MxmlNode) (v : Option String) :
    Except Unit (Option String) :=
  match node, v with
  | some (.element _ attrs), some s => getAttrNameLoop attrs s
  | _, _ => .ok none

/-- The scan-and-shift loop of mxmlElementDeleteAttr (mxml-attr.c:61-85): drop
the first record whose name matches and shift the later records one slot
earlier (the memmove), keeping their order. -/
def deleteAttrLoop (attrs : List MxmlAttr) (name : String) : List MxmlAttr :=
  match attrs with
  | [] => []
  | a :: rest => if a.name = name then rest else a :: deleteAttrLoop rest name

/-- mxmlElementDeleteAttr (mxml-attr.c:37-86). -/
def mxmlElementDeleteAttr (node : Option MxmlNode) (name : Option String) :
    DeleteOut :=
  match node, name with
  | some (.element elName attrs), some n =>
      ⟨some (.element elName (deleteAttrLoop attrs n)), []⟩
  | _, _ => ⟨node, []⟩

/-- mxmlElementSetAttrf (mxml-attr.c:202-238).  composed is the result of the
external variadic formatting call _mxml_vstrdupf(format, ap): some s when the
composition produced s, none when it failed, in which case mxml_error is
called once and nothing is mutated. -/
def mxmlElementSetAttrf (growthOk nameDupOk : Bool) (node : Option MxmlNode)
    (name fmt : Option String) (composed : Option String) : ElemSetOut :=
  match node, name, fmt with
  | some (.element elName attrs), some n, some _ =>
      match composed with
      | none => ⟨.failure, some (.element elName attrs), [allocErrMsg n elName]⟩
      | some s =>
          let out := mxml_set_attr growthOk nameDupOk elName attrs n (some s)
          ⟨out.result, some (.element elName out.attrs), out.reports⟩
  | _, _, _ => ⟨.noop, node, []⟩

/-- The attribute array of a node (empty for NULL or non-element nodes, which
own no attributes). -/
def nodeAttrs : Option MxmlNode → List MxmlAttr
  | some (.element _ attrs) => attrs
  | _ => []

/-- The attribute names of a node, in storage order. -/
def nodeNames (node : Option MxmlNode) : List String :=
  (nodeAttrs node).map MxmlAttr.name

/-- The attribute count (num_attrs) of a node. -/
def nodeCount (node : Option MxmlNode) : Nat :=
  (nodeAttrs node).length

/-! Helper lemmas about the scan loops. -/

theorem setAttrLoop_eq_none (attrs : List MxmlAttr) (n : String) (v : Option String)
    (h : ∀ a ∈ attrs, a.name ≠ n) : setAttrLoop attrs n v = none := by
  induction attrs with
  | nil => rfl
  | cons a rest ih =>
      have ha : a.name ≠ n := h a (List.mem_cons_self a rest)
      have hrest : ∀ b ∈ rest, b.name ≠ n := fun b hb => h b (List.mem_cons_of_mem a hb)
      simp [setAttrLoop, ha, ih hrest]

theorem setAttrLoop_not_mem (attrs : List MxmlAttr) (n : String) (v : Option String)
    (h : setAttrLoop attrs n v = none) : ∀ a ∈ attrs, a.name ≠ n := by
  induction attrs with
  | nil => intro a ha; cases ha
  | cons a rest ih =>
      by_cases han : a.name = n
      · simp [setAttrLoop, han] at h
      · intro b hb
        rcases List.mem_cons.mp hb with rfl | hbr
        · exact han
        · have hr : setAttrLoop rest n v = none := by
            cases hcase : setAttrLoop rest n v with
            | none => rfl
            | some l => simp [setAttrLoop, han, hcase] at h
          exact ih hr b hbr

theorem setAttrLoop_names (attrs : List MxmlAttr) (n : String) (v : Option String)
    (l : List MxmlAttr) (h : setAttrLoop attrs n v = some l) :
    l.map MxmlAttr.name = attrs.map MxmlAttr.name := by
  induction attrs generalizing l with
  | nil => simp [setAttrLoop] at h
  | cons a rest ih =>
      by_cases han : a.name = n
      · simp [setAttrLoop, han] at h
        subst h
        simp [han]
      · cases hcase : setAttrLoop rest n v with
        | none => simp [setAttrLoop, han, hcase] at h
        | some rest2 =>
            simp [setAttrLoop, han, hcase] at h
            subst h
            simp [ih rest2 hcase]

theorem setAttrLoop_getValue (attrs : List MxmlAttr) (n : String) (v : Option String)
    (l : List MxmlAttr) (h : setAttrLoop attrs n v = some l) :
    getAttrValueLoop l n = v := by
  induction attrs generalizing l with
  | nil => simp [setAttrLoop] at h
  | cons a rest ih =>
      by_cases han : a.name = n
      · simp [setAttrLoop, han] at h
        subst h
        simp [getAttrValueLoop, han]
      · cases hcase : setAttrLoop rest n v with
        | none => simp [setAttrLoop, han, hcase] at h
        | some rest2 =>
            simp [setAttrLoop, han, hcase] at h
            subst h
            simp [getAttrValueLoop, han, ih rest2 hcase]

theorem getAttrValueLoop_append (attrs : List MxmlAttr) (n : String) (v : Option String)
    (h : ∀ a ∈ attrs, a.name ≠ n) :
    getAttrValueLoop (attrs ++ [⟨n, v⟩]) n = v := by
  induction attrs with
  | nil => simp [getAttrValueLoop]
  | cons a rest ih =>
      have ha : a.name ≠ n := h a (List.mem_cons_self a rest)
      simp [getAttrValueLoop, ha, ih (fun b hb => h b (List.mem_cons_of_mem a hb))]

theorem setAttrLoop_mem_result (attrs : List MxmlAttr) (n : String) (v : Option String)
    (l : List MxmlAttr) (h : setAttrLoop attrs n v = some l) :
    ∃ a ∈ l, a.name = n := by
  induction attrs generalizing l with
  | nil => simp [setAttrLoop] at h
  | cons a rest ih =>
      by_cases han : a.name = n
      · simp [setAttrLoop, han] at h
        subst h
        exact ⟨⟨n, v⟩, List.mem_cons_self _ _, rfl⟩
      · cases hcase : setAttrLoop rest n v with
        | none => simp [setAttrLoop, han, hcase] at h
        | some rest2 =>
            simp [setAttrLoop, han, hcase] at h
            subst h
            rcases ih rest2 hcase with ⟨b, hb, hbn⟩
            exact ⟨b, List.mem_cons_of_mem a hb, hbn⟩

theorem setAttrLoop_isSome (attrs : List MxmlAttr) (n : String) (v : Option String)
    (h : ∃ a ∈ attrs, a.name = n) : ∃ l, setAttrLoop attrs n v = some l := by
  induction attrs with
  | nil => rcases h with ⟨a, ha, _⟩; cases ha
  | cons a rest ih =>
      by_cases han : a.name = n
      · exact ⟨⟨a.name, v⟩ :: rest, by simp [setAttrLoop, han]⟩
      · rcases h with ⟨b, hb, hbn⟩
        rcases List.mem_cons.mp hb with rfl | hbr
        · exact absurd hbn han
        · rcases ih ⟨b, hbr, hbn⟩ with ⟨l, hl⟩
          exact ⟨a :: l, by simp [setAttrLoop, han, hl]⟩

theorem filter_name_eq_nil (attrs : List MxmlAttr) (n : String)
    (h : ∀ a ∈ attrs, a.name ≠ n) :
    attrs.filter (fun a => a.name = n) = [] := by
  induction attrs with
  | nil => rfl
  | cons a rest ih =>
      have ha : a.name ≠ n := h a (List.mem_cons_self a rest)
      simp [List.filter_cons, ha, ih (fun b hb => h b (List.mem_cons_of_mem a hb))]

theorem setAttrLoop_filter (attrs : List MxmlAttr) (n : String) (v : Option String)
    (l : List MxmlAttr) (hnd : (attrs.map MxmlAttr.name).Nodup)
    (h : setAttrLoop attrs n v = some l) :
    l.filter (fun a => a.name = n) = [⟨n, v⟩] := by
  induction attrs generalizing l with
  | nil => simp [setAttrLoop] at h
  | cons a rest ih =>
      by_cases han : a.name = n
      · simp [setAttrLoop, han] at h
        subst h
        have hnd2 : (∀ x ∈ rest, ¬x.name = a.name) ∧ (rest.map MxmlAttr.name).Nodup := by
          simpa using hnd
        have hrest : ∀ b ∈ rest, b.name ≠ n := fun b hb hbn =>
          hnd2.1 b hb (hbn.trans han.symm)
        simp [List.filter_cons, han, filter_name_eq_nil rest n hrest]
      · cases hcase : setAttrLoop rest n v with
        | none => simp [setAttrLoop, han, hcase] at h
        | some rest2 =>
            simp [setAttrLoop, han, hcase] at h
            subst h
            have hnd2 : (∀ x ∈ rest, ¬x.name = a.name) ∧ (rest.map MxmlAttr.name).Nodup := by
              simpa using hnd
            simp [List.filter_cons, han, ih rest2 hnd2.2 hcase]

theorem setAttrLoop_decomp (l1 l2 : List MxmlAttr) (a : MxmlAttr) (n : String)
    (v : Option String) (hl1 : ∀ b ∈ l1, b.name ≠ n) (ha : a.name = n) :
    setAttrLoop (l1 ++ a :: l2) n v = some (l1 ++ ⟨n, v⟩ :: l2) := by
  induction l1 with
  | nil => simp [setAttrLoop, ha]
  | cons b rest ih =>
      have hb : b.name ≠ n := hl1 b (List.mem_cons_self b rest)
      simp [setAttrLoop, hb, ih (fun c hc => hl1 c (List.mem_cons_of_mem b hc))]

theorem deleteAttrLoop_sublist (attrs : List MxmlAttr) (n : String) :
    (deleteAttrLoop attrs n).Sublist attrs := by
  induction attrs with
  | nil => simp [deleteAttrLoop]
  | cons a rest ih =>
      by_cases han : a.name = n
      · have hd : deleteAttrLoop (a :: rest) n = rest := by simp [deleteAttrLoop, han]
        rw [hd]
        exact List.sublist_cons_self a rest
      · simpa [deleteAttrLoop, han] using ih.cons₂ a

theorem deleteAttrLoop_decomp (l1 l2 : List MxmlAttr) (a : MxmlAttr) (n : String)
    (hl1 : ∀ b ∈ l1, b.name ≠ n) (ha : a.name = n) :
    deleteAttrLoop (l1 ++ a :: l2) n = l1 ++ l2 := by
  induction l1 with
  | nil => simp [deleteAttrLoop, ha]
  | cons b rest ih =>
      have hb : b.name ≠ n := hl1 b (List.mem_cons_self b rest)
      simp [deleteAttrLoop, hb, ih (fun c hc => hl1 c (List.mem_cons_of_mem b hc))]

theorem deleteAttrLoop_not_mem (attrs : List MxmlAttr) (n : String)
    (h : ∀ a ∈ attrs, a.name ≠ n) : deleteAttrLoop attrs n = attrs := by
  induction attrs with
  | nil => rfl
  | cons a rest ih =>
      have ha : a.name ≠ n := h a (List.mem_cons_self a rest)
      simp [deleteAttrLoop, ha, ih (fun b hb => h b (List.mem_cons_of_mem a hb))]

/-! Lemmas about mxml_set_attr as a whole. -/

theorem valueCopy_true (v : Option String) : valueCopy true v = v := by
  cases v <;> rfl

theorem mxml_set_attr_found (g d : Bool) (e : String) (attrs : List MxmlAttr)
    (n : String) (v : Option String) (l : List MxmlAttr)
    (h : setAttrLoop attrs n v = some l) :
    mxml_set_attr g d e attrs n v = ⟨.success, l, []⟩ := by
  simp [mxml_set_attr, h]

theorem mxml_set_attr_failure (g d : Bool) (e : String) (attrs : List MxmlAttr)
    (n : String) (v : Option String)
    (hnone : setAttrLoop attrs n v = none) (hf : g = false ∨ d = false) :
    mxml_set_attr g d e attrs n v = ⟨.failure, attrs, [allocErrMsg n e]⟩ := by
  rcases hf with rfl | rfl
  · simp [mxml_set_attr, hnone]
  · cases g <;> simp [mxml_set_attr, hnone]

theorem mxml_set_attr_success_shape (g d : Bool) (e : String) (attrs : List MxmlAttr)
    (n : String) (v : Option String)
    (hs : (mxml_set_attr g d e attrs n v).result = .success) :
    (∃ l, setAttrLoop attrs n v = some l ∧ (mxml_set_attr g d e attrs n v).attrs = l)
    ∨ (setAttrLoop attrs n v = none
       ∧ (mxml_set_attr g d e attrs n v).attrs = attrs ++ [⟨n, v⟩]) := by
  cases hcase : setAttrLoop attrs n v with
  | some l => exact Or.inl ⟨l, rfl, by simp [mxml_set_attr, hcase]⟩
  | none =>
      cases g with
      | false => simp [mxml_set_attr, hcase] at hs
      | true =>
          cases d with
          | false => simp [mxml_set_attr, hcase] at hs
          | true => exact Or.inr ⟨rfl, by simp [mxml_set_attr, hcase]⟩

theorem mxml_set_attr_getValue (g d : Bool) (e : String) (attrs : List MxmlAttr)
    (n : String) (v : Option String)
    (hs : (mxml_set_attr g d e attrs n v).result = .success) :
    getAttrValueLoop ((mxml_set_attr g d e attrs n v).attrs) n = v := by
  rcases mxml_set_attr_success_shape g d e attrs n v hs with
    ⟨l, hl, hres⟩ | ⟨hnone, hres⟩
  · rw [hres]
    exact setAttrLoop_getValue attrs n v l hl
  · rw [hres]
    exact getAttrValueLoop_append attrs n v (setAttrLoop_not_mem attrs n v hnone)

theorem mxml_set_attr_mem_name (g d : Bool) (e : String) (attrs : List MxmlAttr)
    (n : String) (v : Option String)
    (hs : (mxml_set_attr g d e attrs n v).result = .success) :
    ∃ a ∈ (mxml_set_attr g d e attrs n v).attrs, a.name = n := by
  rcases mxml_set_attr_success_shape g d e attrs n v hs with
    ⟨l, hl, hres⟩ | ⟨hnone, hres⟩
  · rw [hres]
    exact setAttrLoop_mem_result attrs n v l hl
  · rw [hres]
    exact ⟨⟨n, v⟩, by simp, rfl⟩

theorem mxml_set_attr_nodup (g d : Bool) (e : String) (attrs : List MxmlAttr)
    (n : String) (v : Option String) (hnd : (attrs.map MxmlAttr.name).Nodup) :
    (((mxml_set_attr g d e attrs n v).attrs).map MxmlAttr.name).Nodup := by
  cases hcase : setAttrLoop attrs n v with
  | some l =>
      have hres : (mxml_set_attr g d e attrs n v).attrs = l := by
        simp [mxml_set_attr, hcase]
      rw [hres, setAttrLoop_names attrs n v l hcase]
      exact hnd
  | none =>
      cases g with
      | false => simpa [mxml_set_attr, hcase] using hnd
      | true =>
          cases d with
          | false => simpa [mxml_set_attr, hcase] using hnd
          | true =>
              have hnot : n ∉ attrs.map MxmlAttr.name := by
                have h2 := setAttrLoop_not_mem attrs n v hcase
                simp only [List.mem_map]
                rintro ⟨a, ha, hn⟩
                exact h2 a ha hn
              have hres : (mxml_set_attr true true e attrs n v).attrs = attrs ++ [⟨n, v⟩] := by
                simp [mxml_set_attr, hcase]
              rw [hres, List.map_append]
              rw [List.nodup_append]
              refine ⟨hnd, List.nodup_singleton n, fun x hx hx2 => ?_⟩
              rw [List.map_singleton, List.mem_singleton] at hx2
              have hx3 : x = n := hx2
              exact hnot (hx3 ▸ hx)

/-! Claim theorems. -/

/-- Claim C1 is false exactly as stated: with the strdup of the value failing
(valueDupOk = false) SetValue still returns success (mxml_set_attr returns 0,
mxml-attr.c:270-272 and 302-306 take valuec = NULL), yet an immediately
following GetValue returns absent instead of the value that was set. -/
theorem C1_counterexample :
    (mxmlElementSetAttr false true true (some (.element "e" []))
        (some "n") (some "v")).status = .success
    ∧ mxmlElementGetAttrValue
        (mxmlElementSetAttr false true true (some (.element "e" []))
          (some "n") (some "v")).node
        (some "n") ≠ some "v" := by
  exact ⟨rfl, by decide⟩

/-- Claim C1 (amended): for every element node E, name N and value V, if
SetValue(E,N,V) returns success and the owned copy of the value string
succeeded (valueDupOk = true, which also covers an absent V), then an
immediately following GetValue(E,N) returns V.  The amendment, forced by
C1_counterexample, adds the success of the value copy to the hypothesis. -/
theorem C1_set_success_get (g d : Bool) (elName n : String) (V : Option String)
    (attrs : List MxmlAttr)
    (hs : (mxmlElementSetAttr true g d (some (.element elName attrs))
        (some n) V).status = .success) :
    mxmlElementGetAttrValue
      (mxmlElementSetAttr true g d (some (.element elName attrs)) (some n) V).node
      (some n) = V := by
  have hs2 : (mxml_set_attr g d elName attrs n (valueCopy true V)).result
      = .success := hs
  have hget := mxml_set_attr_getValue g d elName attrs n (valueCopy true V) hs2
  show getAttrValueLoop ((mxml_set_attr g d elName attrs n (valueCopy true V)).attrs) n = V
  rw [hget, valueCopy_true]

/-- Witness for C1_set_success_get at a concrete input. -/
theorem C1_witness :
    (mxmlElementSetAttr true true true (some (.element "img" []))
        (some "src") (some "a.png")).status = .success
    ∧ mxmlElementGetAttrValue
        (mxmlElementSetAttr true true true (some (.element "img" []))
          (some "src") (some "a.png")).node
        (some "src") = some "a.png" :=
  ⟨by decide, C1_set_success_get true true "img" "src" (some "a.png") [] (by decide)⟩

/-- Claim C2 is false exactly as stated: here the owned-string copy of the
value fails (valueDupOk = false) during a SetValue call on an existing
attribute, yet the Error Reporter is never invoked and the operation returns
success (mxml-attr.c:181-188 passes valuec = NULL on without reporting). -/
theorem C2_counterexample :
    (mxmlElementSetAttr false true true
        (some (.element "e" [⟨"n", some "old"⟩])) (some "n") (some "v")).reports = []
    ∧ (mxmlElementSetAttr false true true
        (some (.element "e" [⟨"n", some "old"⟩])) (some "n") (some "v")).status
      = .success := by
  exact ⟨rfl, rfl⟩

/-- Claim C2 (amended): for every element node and every SetValue call in
which the copy of the NAME or the array growth fails (the new-attribute path,
mxml-attr.c:279-300), the Error Reporter is invoked with the diagnostic naming
the attribute and the owning element, and the operation returns failure.  The
amendment, forced by C2_counterexample, drops the failed copy of the VALUE
from the trigger list: that failure is silent. -/
theorem C2_alloc_failure_reported (vd g d : Bool) (elName n : String)
    (V : Option String) (attrs : List MxmlAttr)
    (hnf : ∀ a ∈ attrs, a.name ≠ n) (hf : g = false ∨ d = false) :
    (mxmlElementSetAttr vd g d (some (.element elName attrs)) (some n) V).reports
      = [allocErrMsg n elName]
    ∧ (mxmlElementSetAttr vd g d (some (.element elName attrs)) (some n) V).status
      = .failure := by
  have hrep := mxml_set_attr_failure g d elName attrs n (valueCopy vd V)
    (setAttrLoop_eq_none attrs n _ hnf) hf
  constructor
  · show (mxml_set_attr g d elName attrs n (valueCopy vd V)).reports = _
    rw [hrep]
  · show (mxml_set_attr g d elName attrs n (valueCopy vd V)).result = _
    rw [hrep]

/-- Witness for C2_alloc_failure_reported at a concrete input. -/
theorem C2_witness :
    (mxmlElementSetAttr true false true (some (.element "img" []))
        (some "src") (some "a.png")).reports = [allocErrMsg "src" "img"]
    ∧ (mxmlElementSetAttr true false true (some (.element "img" []))
        (some "src") (some "a.png")).status = .failure :=
  C2_alloc_failure_reported true false true "img" "src" (some "a.png") []
    (by decide) (Or.inl rfl)

/-- Claim C3 (confirmed): if an allocation failure occurs during SetValue in
the growth reallocation or the name copy (the new-attribute path with
growthOk = false or nameDupOk = false), then after the call the node, the
result of GetValue for every name, and the attribute count are observably
identical to their values immediately before the call. -/
theorem C3_alloc_failure_no_effect (vd g d : Bool) (elName n : String)
    (V : Option String) (attrs : List MxmlAttr)
    (hnf : ∀ a ∈ attrs, a.name ≠ n) (hf : g = false ∨ d = false) :
    (mxmlElementSetAttr vd g d (some (.element elName attrs)) (some n) V).node
      = some (.element elName attrs)
    ∧ (∀ q : Option String,
        mxmlElementGetAttrValue
          (mxmlElementSetAttr vd g d (some (.element elName attrs)) (some n) V).node q
        = mxmlElementGetAttrValue (some (.element elName attrs)) q)
    ∧ nodeCount (mxmlElementSetAttr vd g d (some (.element elName attrs)) (some n) V).node
      = nodeCount (some (.element elName attrs)) := by
  have hrep := mxml_set_attr_failure g d elName attrs n (valueCopy vd V)
    (setAttrLoop_eq_none attrs n _ hnf) hf
  have hnode : (mxmlElementSetAttr vd g d (some (.element elName attrs))
      (some n) V).node = some (.element elName attrs) := by
    show some (MxmlNode.element elName
        (mxml_set_attr g d elName attrs n (valueCopy vd V)).attrs)
      = some (MxmlNode.element elName attrs)
    rw [hrep]
  exact ⟨hnode, fun q => by rw [hnode], by rw [hnode]⟩

/-- Witness for C3_alloc_failure_no_effect at a concrete input. -/
theorem C3_witness :
    (mxmlElementSetAttr true true false
        (some (.element "img" [⟨"alt", some "pic"⟩])) (some "src") (some "a.png")).node
      = some (.element "img" [⟨"alt", some "pic"⟩])
    ∧ (∀ q : Option String,
        mxmlElementGetAttrValue
          (mxmlElementSetAttr true true false
            (some (.element "img" [⟨"alt", some "pic"⟩])) (some "src") (some "a.png")).node q
        = mxmlElementGetAttrValue (some (.element "img" [⟨"alt", some "pic"⟩])) q)
    ∧ nodeCount (mxmlElementSetAttr true true false
        (some (.element "img" [⟨"alt", some "pic"⟩])) (some "src") (some "a.png")).node
      = nodeCount (some (.element "img" [⟨"alt", some "pic"⟩])) :=
  C3_alloc_failure_no_effect true true false "img" "src" (some "a.png")
    [⟨"alt", some "pic"⟩] (by decide) (Or.inr rfl)

/-- Claim C4 (confirmed): DeleteByName on an element node whose attribute
array decomposes as l1 ++ a :: l2 with a the first record named n removes
exactly that record, keeps the order of the rest, decreases the count by
exactly one, and reports nothing; when no record is named n the call changes
nothing and reports nothing. -/
theorem C4_delete_attr (elName n : String) (attrs : List MxmlAttr) :
    (∀ l1 l2 (a : MxmlAttr), attrs = l1 ++ a :: l2 →
        (∀ b ∈ l1, b.name ≠ n) → a.name = n →
        mxmlElementDeleteAttr (some (.element elName attrs)) (some n)
          = ⟨some (.element elName (l1 ++ l2)), []⟩
        ∧ (l1 ++ l2).length + 1 = attrs.length)
    ∧ ((∀ a ∈ attrs, a.name ≠ n) →
        mxmlElementDeleteAttr (some (.element elName attrs)) (some n)
          = ⟨some (.element elName attrs), []⟩) := by
  constructor
  · rintro l1 l2 a rfl hl1 ha
    constructor
    · show (⟨some (.element elName (deleteAttrLoop (l1 ++ a :: l2) n)), []⟩ : DeleteOut) = _
      rw [deleteAttrLoop_decomp l1 l2 a n hl1 ha]
    · simp only [List.length_append, List.length_cons]
      omega
  · intro h
    show (⟨some (.element elName (deleteAttrLoop attrs n)), []⟩ : DeleteOut) = _
    rw [deleteAttrLoop_not_mem attrs n h]

/-- Witness for C4_delete_attr at a concrete input. -/
theorem C4_witness :
    mxmlElementDeleteAttr
      (some (.element "img" [⟨"src", some "b.png"⟩, ⟨"alt", some "pic"⟩])) (some "src")
      = ⟨some (.element "img" [⟨"alt", some "pic"⟩]), []⟩
    ∧ mxmlElementDeleteAttr
        (some (.element "img" [⟨"alt", some "pic"⟩])) (some "missing")
      = ⟨some (.element "img" [⟨"alt", some "pic"⟩]), []⟩ :=
  ⟨((C4_delete_attr "img" "src" [⟨"src", some "b.png"⟩, ⟨"alt", some "pic"⟩]).1
      [] [⟨"alt", some "pic"⟩] ⟨"src", some "b.png"⟩ rfl (by decide) rfl).1,
   (C4_delete_attr "img" "missing" [⟨"alt", some "pic"⟩]).2 (by decide)⟩

/-- Claim C6 (code bug): GetNameByValue is specified to skip records whose
value is absent, but the C code (mxml-attr.c:142) calls
strcmp(attr->value, value) without checking attr->value for NULL.  On an
element holding the valueless attribute a followed by b="x", the query for
"x" dereferences the NULL value of a - undefined behaviour, modelled as the
error result - instead of skipping a and returning b. -/
theorem C6_getattrname_null_deref :
    mxmlElementGetAttrName
      (some (.element "e" [⟨"a", none⟩, ⟨"b", some "x"⟩])) (some "x")
      = .error () := rfl

/-- Claim C7 is false exactly as stated: an EMPTY (but non-NULL) attribute
name is not rejected by the range checks (mxml-attr.c:178 tests only !name),
so SetValue with the empty name mutates the store instead of being a no-op. -/
theorem C7_counterexample :
    (mxmlElementSetAttr true true true (some (.element "e" []))
        (some "") (some "v")).node
      = some (.element "e" [⟨"", some "v"⟩]) := by
  decide

/-- Claim C7 (amended): every operation called with an absent node, a node
not tagged element, or an ABSENT name (where a name is required) is a silent
no-op: it returns the neutral result, performs no mutation, and produces no
error report.  The amendment, forced by C7_counterexample, removes the empty
name from the list of rejected inputs: the range checks test the name pointer
for NULL only, never for emptiness. -/
theorem C7_invalid_args_noop (vd g d : Bool) (node : Option MxmlNode)
    (nm v fmt comp : Option String) :
    ((node = none ∨ node = some .nonElement) →
      mxmlElementGetAttrValue node nm = none
      ∧ mxmlElementGetAttrName node v = .ok none
      ∧ mxmlElementSetAttr vd g d node nm v = ⟨.noop, node, []⟩
      ∧ mxmlElementSetAttrf g d node nm fmt comp = ⟨.noop, node, []⟩
      ∧ mxmlElementDeleteAttr node nm = ⟨node, []⟩)
    ∧ (mxmlElementGetAttrValue node none = none
      ∧ mxmlElementSetAttr vd g d node none v = ⟨.noop, node, []⟩
      ∧ mxmlElementSetAttrf g d node none fmt comp = ⟨.noop, node, []⟩
      ∧ mxmlElementDeleteAttr node none = ⟨node, []⟩) := by
  constructor
  · rintro (rfl | rfl) <;> exact ⟨rfl, rfl, rfl, rfl, rfl⟩
  · cases node with
    | none => exact ⟨rfl, rfl, rfl, rfl⟩
    | some nd => cases nd <;> exact ⟨rfl, rfl, rfl, rfl⟩

/-- Witness for C7_invalid_args_noop at a concrete input. -/
theorem C7_witness :
    mxmlElementGetAttrValue (some MxmlNode.nonElement) (some "a") = none
    ∧ mxmlElementGetAttrName (some MxmlNode.nonElement) (some "x") = .ok none
    ∧ mxmlElementSetAttr true true true (some MxmlNode.nonElement)
        (some "a") (some "v") = ⟨.noop, some MxmlNode.nonElement, []⟩
    ∧ mxmlElementSetAttrf true true (some MxmlNode.nonElement)
        (some "a") (some "f") (some "c") = ⟨.noop, some MxmlNode.nonElement, []⟩
    ∧ mxmlElementDeleteAttr (some MxmlNode.nonElement) (some "a")
      = ⟨some MxmlNode.nonElement, []⟩ :=
  (C7_invalid_args_noop true true true (some MxmlNode.nonElement)
    (some "a") (some "x") (some "f") (some "c")).1 (Or.inr rfl)

/-- Claim C8 (confirmed): on an element node with a name and a format, if the
value composition of SetFormatted fails, exactly one error report naming the
attribute and the owning element is made and the store is untouched; if the
composition produces the string s, the call is extensionally identical -
status, resulting node and reports - to SetValue with value s (whose own copy
of the value succeeds, since SetFormatted hands its composed string straight
to mxml_set_attr). -/
theorem C8_setattrf_refines_setattr (g d : Bool) (elName nm fmt s : String)
    (attrs : List MxmlAttr) :
    mxmlElementSetAttrf g d (some (.element elName attrs)) (some nm) (some fmt) none
      = ⟨.failure, some (.element elName attrs), [allocErrMsg nm elName]⟩
    ∧ mxmlElementSetAttrf g d (some (.element elName attrs)) (some nm) (some fmt) (some s)
      = mxmlElementSetAttr true g d (some (.element elName attrs)) (some nm) (some s) := by
  exact ⟨rfl, rfl⟩

/-- Claim C10 (confirmed): when the element already holds a record named n
(first such record a, preceded by non-matching l1), SetValue always returns
success and never invokes the Error Reporter, whatever the allocation oracle
says; and when the copy of the value string fails (valueDupOk = false with a
present value), the record named n is silently stored with an absent value
instead of the given one. -/
theorem C10_existing_silent_success (vd g d : Bool) (elName n : String)
    (V : Option String) (l1 l2 : List MxmlAttr) (a : MxmlAttr)
    (ha : a.name = n) (hl1 : ∀ b ∈ l1, b.name ≠ n) :
    (mxmlElementSetAttr vd g d (some (.element elName (l1 ++ a :: l2)))
        (some n) V).status = .success
    ∧ (mxmlElementSetAttr vd g d (some (.element elName (l1 ++ a :: l2)))
        (some n) V).reports = []
    ∧ (vd = false → ∀ s, V = some s →
        (mxmlElementSetAttr vd g d (some (.element elName (l1 ++ a :: l2)))
            (some n) V).node
          = some (.element elName (l1 ++ ⟨n, none⟩ :: l2))) := by
  have hfound := setAttrLoop_decomp l1 l2 a n (valueCopy vd V) hl1 ha
  have heq := mxml_set_attr_found g d elName (l1 ++ a :: l2) n (valueCopy vd V)
    (l1 ++ ⟨n, valueCopy vd V⟩ :: l2) hfound
  refine ⟨?_, ?_, ?_⟩
  · show (mxml_set_attr g d elName (l1 ++ a :: l2) n (valueCopy vd V)).result = _
    rw [heq]
  · show (mxml_set_attr g d elName (l1 ++ a :: l2) n (valueCopy vd V)).reports = _
    rw [heq]
  · rintro rfl s rfl
    show some (MxmlNode.element elName
        (mxml_set_attr g d elName (l1 ++ a :: l2) n (valueCopy false (some s))).attrs) = _
    rw [heq]
    rfl

/-- Witness for C10_existing_silent_success at a concrete input. -/
theorem C10_witness :
    (mxmlElementSetAttr false true true
        (some (.element "e" [⟨"n", some "old"⟩])) (some "n") (some "v")).status
      = .success
    ∧ (mxmlElementSetAttr false true true
        (some (.element "e" [⟨"n", some "old"⟩])) (some "n") (some "v")).reports = []
    ∧ (false = false → ∀ s, (some "v" : Option String) = some s →
        (mxmlElementSetAttr false true true
            (some (.element "e" [⟨"n", some "old"⟩])) (some "n") (some "v")).node
          = some (.element "e" [⟨"n", none⟩])) :=
  C10_existing_silent_success false true true "e" "n" (some "v")
    [] [] ⟨"n", some "old"⟩ rfl (by decide)

/-- Claim C5 is false exactly as stated: both SetValue calls return success,
but because the copy of the second value fails (valueDupOk = false on the
second call) the record named n is left with an absent value, not V2. -/
theorem C5_counterexample :
    (mxmlElementSetAttr true true true (some (.element "e" []))
        (some "n") (some "v1")).status = .success
    ∧ (mxmlElementSetAttr false true true
        (mxmlElementSetAttr true true true (some (.element "e" []))
          (some "n") (some "v1")).node
        (some "n") (some "v2")).status = .success
    ∧ (nodeAttrs (mxmlElementSetAttr false true true
        (mxmlElementSetAttr true true true (some (.element "e" []))
          (some "n") (some "v1")).node
        (some "n") (some "v2")).node).filter (fun a => a.name = "n")
      ≠ [⟨"n", some "v2"⟩] := by
  exact ⟨rfl, rfl, by decide⟩

/-- Claim C5 (amended): on an element node with pairwise distinct attribute
names, after SetValue(E,N,V1) and then SetValue(E,N,V2) both succeed and the
SECOND call's value copy succeeds (valueDupOk = true on the second call; the
first call's value copy may succeed or fail), the store holds exactly one
record named N, its value is V2, its position is unchanged by the second call
(the whole name sequence is unchanged), and the count is the same before and
after the second call.  The amendment, forced by C5_counterexample, adds only
the success of the second value copy to the hypothesis: a failed first copy
merely stores an absent value that the second call overwrites anyway. -/
theorem C5_overwrite (vd1 g1 d1 g2 d2 : Bool) (elName n : String)
    (V1 V2 : Option String) (attrs : List MxmlAttr)
    (hnd : (attrs.map MxmlAttr.name).Nodup)
    (h1 : (mxmlElementSetAttr vd1 g1 d1 (some (.element elName attrs))
        (some n) V1).status = .success)
    (h2 : (mxmlElementSetAttr true g2 d2
        (mxmlElementSetAttr vd1 g1 d1 (some (.element elName attrs)) (some n) V1).node
        (some n) V2).status = .success) :
    (nodeAttrs (mxmlElementSetAttr true g2 d2
        (mxmlElementSetAttr vd1 g1 d1 (some (.element elName attrs)) (some n) V1).node
        (some n) V2).node).filter (fun a => a.name = n) = [⟨n, V2⟩]
    ∧ nodeNames (mxmlElementSetAttr true g2 d2
        (mxmlElementSetAttr vd1 g1 d1 (some (.element elName attrs)) (some n) V1).node
        (some n) V2).node
      = nodeNames (mxmlElementSetAttr vd1 g1 d1 (some (.element elName attrs))
          (some n) V1).node
    ∧ nodeCount (mxmlElementSetAttr true g2 d2
        (mxmlElementSetAttr vd1 g1 d1 (some (.element elName attrs)) (some n) V1).node
        (some n) V2).node
      = nodeCount (mxmlElementSetAttr vd1 g1 d1 (some (.element elName attrs))
          (some n) V1).node := by
  have hs1 : (mxml_set_attr g1 d1 elName attrs n (valueCopy vd1 V1)).result
      = .success := h1
  have hnd1 : (((mxml_set_attr g1 d1 elName attrs n (valueCopy vd1 V1)).attrs).map
      MxmlAttr.name).Nodup :=
    mxml_set_attr_nodup g1 d1 elName attrs n (valueCopy vd1 V1) hnd
  have hmem1 := mxml_set_attr_mem_name g1 d1 elName attrs n (valueCopy vd1 V1) hs1
  obtain ⟨l, hl⟩ := setAttrLoop_isSome
    ((mxml_set_attr g1 d1 elName attrs n (valueCopy vd1 V1)).attrs) n
    (valueCopy true V2) hmem1
  have heq2 := mxml_set_attr_found g2 d2 elName
    ((mxml_set_attr g1 d1 elName attrs n (valueCopy vd1 V1)).attrs) n
    (valueCopy true V2) l hl
  refine ⟨?_, ?_, ?_⟩
  · show ((mxml_set_attr g2 d2 elName
        ((mxml_set_attr g1 d1 elName attrs n (valueCopy vd1 V1)).attrs) n
        (valueCopy true V2)).attrs).filter (fun a => a.name = n) = [⟨n, V2⟩]
    rw [heq2]
    have hfil := setAttrLoop_filter
      ((mxml_set_attr g1 d1 elName attrs n (valueCopy vd1 V1)).attrs) n
      (valueCopy true V2) l hnd1 hl
    rw [valueCopy_true] at hfil
    exact hfil
  · show ((mxml_set_attr g2 d2 elName
        ((mxml_set_attr g1 d1 elName attrs n (valueCopy vd1 V1)).attrs) n
        (valueCopy true V2)).attrs).map MxmlAttr.name
      = ((mxml_set_attr g1 d1 elName attrs n (valueCopy vd1 V1)).attrs).map
        MxmlAttr.name
    rw [heq2]
    exact setAttrLoop_names _ n (valueCopy true V2) l hl
  · show ((mxml_set_attr g2 d2 elName
        ((mxml_set_attr g1 d1 elName attrs n (valueCopy vd1 V1)).attrs) n
        (valueCopy true V2)).attrs).length
      = ((mxml_set_attr g1 d1 elName attrs n (valueCopy vd1 V1)).attrs).length
    rw [heq2]
    have hlen := congrArg List.length (setAttrLoop_names _ n (valueCopy true V2) l hl)
    simpa using hlen

/-- Witness for C5_overwrite at a concrete input, with the first call's value
copy failing (valueDupOk = false) and the second succeeding: the second call
still overwrites the absent value, leaving exactly one record src="b.png". -/
theorem C5_witness :
    (nodeAttrs (mxmlElementSetAttr true true true
        (mxmlElementSetAttr false true true (some (.element "img" []))
          (some "src") (some "a.png")).node
        (some "src") (some "b.png")).node).filter (fun a => a.name = "src")
      = [⟨"src", some "b.png"⟩]
    ∧ nodeNames (mxmlElementSetAttr true true true
        (mxmlElementSetAttr false true true (some (.element "img" []))
          (some "src") (some "a.png")).node
        (some "src") (some "b.png")).node
      = nodeNames (mxmlElementSetAttr false true true (some (.element "img" []))
          (some "src") (some "a.png")).node
    ∧ nodeCount (mxmlElementSetAttr true true true
        (mxmlElementSetAttr false true true (some (.element "img" []))
          (some "src") (some "a.png")).node
        (some "src") (some "b.png")).node
      = nodeCount (mxmlElementSetAttr false true true (some (.element "img" []))
          (some "src") (some "a.png")).node :=
  C5_overwrite false true true true true "img" "src" (some "a.png") (some "b.png") []
    (by decide) (by decide) (by decide)

/-- Claim C9 (confirmed): names are unique within one element's attribute
sequence and every operation preserves this.  GetValue and GetNameByValue
return values without producing a new node; for the three mutating operations
- SetValue, SetFormatted, DeleteByName - an element node whose attribute
names are pairwise distinct still has pairwise distinct names after the call,
for every name, value, format and allocation-oracle argument. -/
theorem C9_names_nodup_preserved (vd g d : Bool) (elName : String)
    (attrs : List MxmlAttr) (nm V fmt comp : Option String)
    (hnd : (attrs.map MxmlAttr.name).Nodup) :
    (nodeNames (mxmlElementSetAttr vd g d (some (.element elName attrs)) nm V).node).Nodup
    ∧ (nodeNames (mxmlElementSetAttrf g d (some (.element elName attrs))
        nm fmt comp).node).Nodup
    ∧ (nodeNames (mxmlElementDeleteAttr (some (.element elName attrs)) nm).node).Nodup := by
  refine ⟨?_, ?_, ?_⟩
  · cases nm with
    | none => exact hnd
    | some n =>
        show (((mxml_set_attr g d elName attrs n (valueCopy vd V)).attrs).map
          MxmlAttr.name).Nodup
        exact mxml_set_attr_nodup g d elName attrs n (valueCopy vd V) hnd
  · cases nm with
    | none => exact hnd
    | some n =>
        cases fmt with
        | none => exact hnd
        | some f =>
            cases comp with
            | none => exact hnd
            | some s =>
                show (((mxml_set_attr g d elName attrs n (some s)).attrs).map
                  MxmlAttr.name).Nodup
                exact mxml_set_attr_nodup g d elName attrs n (some s) hnd
  · cases nm with
    | none => exact hnd
    | some n =>
        show ((deleteAttrLoop attrs n).map MxmlAttr.name).Nodup
        exact List.Nodup.sublist
          ((deleteAttrLoop_sublist attrs n).map MxmlAttr.name) hnd

/-- Witness for C9_names_nodup_preserved at a concrete input. -/
theorem C9_witness :
    (nodeNames (mxmlElementSetAttr true true true
        (some (.element "img" [⟨"alt", some "pic"⟩]))
        (some "src") (some "a.png")).node).Nodup
    ∧ (nodeNames (mxmlElementSetAttrf true true
        (some (.element "img" [⟨"alt", some "pic"⟩]))
        (some "src") (some "f") (some "100")).node).Nodup
    ∧ (nodeNames (mxmlElementDeleteAttr
        (some (.element "img" [⟨"alt", some "pic"⟩])) (some "src")).node).Nodup :=
  C9_names_nodup_preserved true true true "img" [⟨"alt", some "pic"⟩]
    (some "src") (some "a.png") (some "f") (some "100") (by decide)

end Microxml
